import Mathlib

/-!
Shallow embedding of the HyperMapper cpp_client evaluation client
(src/example_scenarios/clients/cpp_client/cpp_client.cpp) and proofs about
its evaluation-protocol loop, objective evaluator, scenario serialization
and startup checks.

The parameter store is modelled as a list of records; in-place pointer
mutation of the C++ code becomes functional update of the list.  Lines read
from the optimizer child process are modelled as a list of strings together
with a buffer: C fgets leaves the buffer unchanged when the stream is
exhausted, which the model reproduces faithfully.
-/

namespace CppClient

/-- Parameter kind variant.  The enum itself is declared in cpp_client.h,
which is not part of the source tree; the set of variants is taken from the
specification (kind: variant over Real, Integer, Ordinal, Categorical). -/
inductive ParamType where
  | Real
  | Integer
  | Ordinal
  | Categorical
deriving DecidableEq

/-- One tunable dimension: key, kind, discrete range and the mutable
currentValue slot (HMInputParam in the C++ source). -/
structure HMInputParam where
  key : String
  type : ParamType
  range : List Int
  value : Int
deriving DecidableEq

/-- Output of one evaluation (HMObjective in the C++ source). -/
structure HMObjective where
  f1_value : Int
  f2_value : Int
  valid : Bool
deriving DecidableEq

/-- InputParams[i]->getVal(): read the current value of the parameter at
index i of the store (declaration order). -/
def getValAt (ps : List HMInputParam) (i : Nat) : Int :=
  ((ps.get? i).map HMInputParam.value).getD 0

/-- calculateObjective, lines 152-165 of cpp_client.cpp: the reference
objective evaluator of the Chakong-Haimes benchmark. -/
def calculateObjective (InputParams : List HMInputParam) : HMObjective :=
  let x1 := getValAt InputParams 0
  let x2 := getValAt InputParams 1
  { f1_value := 2 + (x1 - 2) * (x1 - 2) + (x2 - 1) * (x2 - 1)
    f2_value := 9 * x1 - (x2 - 1) * (x2 - 1)
    valid := (decide (x1 * x1 + x2 * x2 ≤ 255)) && (decide (x1 - 3 * x2 + 10 ≤ 0)) }

/-- collectInputParams, lines 168-183: two Integer parameters x0 and x1 with
range -20..20.  The initial value slot is uninitialized in C++; the model
uses 0, and no claim depends on it (every row assigns both slots before the
evaluator runs). -/
def collectInputParams : List HMInputParam :=
  [ { key := "x0", type := ParamType.Integer, range := [-20, 20], value := 0 },
    { key := "x1", type := ParamType.Integer, range := [-20, 20], value := 0 } ]

/-- store.set: write value v into the parameter at index idx (pointer
mutation InputParamsMap[param]->setVal(...) in the source, as far as the
store update is concerned). -/
def setValAt : List HMInputParam → Nat → Int → List HMInputParam
  | [], _, _ => []
  | p :: rest, 0, v => { p with value := v } :: rest
  | p :: rest, n + 1, v => p :: setValAt rest n v

/-- The store with x0 := a and x1 := b, so that calculateObjective reads
its local x1 as a and its local x2 as b. -/
def storeWith (a b : Int) : List HMInputParam :=
  setValAt (setValAt collectInputParams 0 a) 1 b

/-! ## Line tokenization

std::string scanning as done by the protocol loop: find_first_of over the
two delimiters comma and newline, substr between positions, and the size_t
arithmetic of the source, including npos + 1 wrapping to 0. -/

/-- True on the two delimiters of find_first_of in the loop. -/
def isCommaNL (c : Char) : Bool := c = ',' || c = '\n'

/-- bufferStr.find_first_of with the comma-newline delimiter set, searching
from absolute position pos; none models std::string::npos. -/
def findFirstOfCommaNL : List Char → Nat → Option Nat
  | [], _ => none
  | c :: rest, 0 =>
      if isCommaNL c then some 0 else (findFirstOfCommaNL rest 0).map (· + 1)
  | _ :: rest, p + 1 => (findFirstOfCommaNL rest p).map (· + 1)

/-- bufferStr.substr(pos, find_first_of(...) - pos): the token starting at
pos; when find_first_of returns npos the size_t length is huge and substr
clamps to the end of the string. -/
def substrTok (cs : List Char) (pos : Nat) : List Char :=
  match findFirstOfCommaNL cs pos with
  | some j => (cs.drop pos).take (j - pos)
  | none => cs.drop pos

/-- pos = find_first_of(...) + 1; on npos the size_t addition wraps to 0,
as in the source. -/
def nextPos (cs : List Char) (pos : Nat) : Nat :=
  match findFirstOfCommaNL cs pos with
  | some j => j + 1
  | none => 0

/-- Position of token i: nextPos iterated i times from pos. -/
def posIter (cs : List Char) (pos : Nat) : Nat → Nat
  | 0 => pos
  | i + 1 => posIter cs (nextPos cs pos) i

/-- The whitespace set skipped by std::stoi. -/
def isSpaceChar (c : Char) : Bool :=
  c = ' ' || c = '\t' || c = '\n' || c = '\r' || c = Char.ofNat 11 || c = Char.ofNat 12

/-- Numeric value of a decimal digit character. -/
def digitVal (c : Char) : Nat := c.toNat - 48

/-- Decimal value of a digit sequence. -/
def digitsToNat (ds : List Char) : Nat :=
  ds.foldl (fun a c => a * 10 + digitVal c) 0

/-- The longest leading run of decimal digits, as a number; none when there
is no digit, in which case std::stoi throws invalid_argument. -/
def parseDigits (cs : List Char) : Option Nat :=
  let ds := cs.takeWhile Char.isDigit
  if ds.isEmpty then none else some (digitsToNat ds)

/-- std::stoi: skip whitespace, optional sign, then at least one digit;
trailing characters are ignored.  none models the invalid_argument
exception, which terminates the C++ process. -/
def stoi (cs0 : List Char) : Option Int :=
  let cs := cs0.dropWhile isSpaceChar
  match cs with
  | '-' :: rest => (parseDigits rest).map (fun n => -(n : Int))
  | '+' :: rest => (parseDigits rest).map (fun n => (n : Int))
  | _ => (parseDigits cs).map (fun n => (n : Int))

/-- bufferStr.find of a single character (plain std::string::find). -/
def findChar (target : Char) : List Char → Option Nat
  | [] => none
  | c :: rest =>
      if c = target then some 0 else (findChar target rest).map (· + 1)

/-- NumReqStr = bufferStr.substr(bufferStr.find(space) + 1): everything
after the first space; when there is no space, npos + 1 wraps to 0 and the
whole string is taken. -/
def numReqStr (cs : List Char) : List Char :=
  match findChar ' ' cs with
  | some j => cs.drop (j + 1)
  | none => cs

/-! ## Protocol loop state and interpreter -/

/-- findHMParamByKey, lines 186-194: linear scan of the parameter store for
the first entry whose key equals the given token, as an index; none models
the end iterator.  The comparison Param == Key is declared in cpp_client.h
(absent from the source tree): per the specification, findByKey matches on
the unique string key. -/
def findHMParamByKey : List HMInputParam → String → Option Nat
  | [], _ => none
  | p :: rest, k =>
      if p.key = k then some 0 else (findHMParamByKey rest k).map (· + 1)

/-- State of the protocol loop: remaining lines from the child, the fgets
buffer, the parameter store, and the observable trace (evaluator
invocations as key-value assignments, and flushed responses). -/
structure LoopState where
  stream : List String
  buffer : String
  store : List HMInputParam
  invocations : List (List (String × Int))
  responses : List String
deriving DecidableEq

/-- fgets(buffer, max_buffer, instream): take the next line into the
buffer; at end of stream fgets returns NULL and leaves the buffer
unchanged, which the loop never checks. -/
def readLine (st : LoopState) : LoopState :=
  match st.stream with
  | [] => st
  | l :: rest => { st with buffer := l, stream := rest }

/-- Parameter-name header scan, lines 280-293: for each of the n positions
take the token at pos, resolve it via findHMParamByKey, record the index in
the positional map and echo the token and a comma into the response;
an unresolved token is the fatalError Unknown parameter received!. -/
def resolveHeader (InParams : List HMInputParam) (cs : List Char) (pos : Nat) :
    Nat → Except String (List Nat × String)
  | 0 => Except.ok ([], "")
  | n + 1 =>
    let tok := String.mk (substrTok cs pos)
    match findHMParamByKey InParams tok with
    | some idx =>
      match resolveHeader InParams cs (nextPos cs pos) n with
      | Except.ok (m, resp) => Except.ok (idx :: m, tok ++ "," ++ resp)
      | Except.error e => Except.error e
    | none => Except.error "Unknown parameter received!"

/-- Candidate-row scan, lines 306-313: for each position in the batch map,
take the token at pos, parse it with stoi, store it into the parameter at
the mapped index, and echo the token and a comma; a stoi failure is the
uncaught invalid_argument exception. -/
def processRow (store : List HMInputParam) (idxs : List Nat) (cs : List Char)
    (pos : Nat) : Except String (List HMInputParam × String) :=
  match idxs with
  | [] => Except.ok (store, "")
  | idx :: rest =>
    let tok := substrTok cs pos
    match stoi tok with
    | none => Except.error "stoi: invalid argument"
    | some v =>
      match processRow (setValAt store idx v) rest cs (nextPos cs pos) with
      | Except.ok (st2, resp) => Except.ok (st2, String.mk tok ++ "," ++ resp)
      | Except.error e => Except.error e

/-- Per-request loop, lines 300-321: read one row line, assign all mapped
parameters, invoke calculateObjective on the store in declaration order,
and append the echoed tokens, both objective values and the feasibility
flag (to_string of the bool, hence 1 or 0, appended unconditionally) to the
response. -/
def processRequests (st : LoopState) (idxs : List Nat) (response : String) :
    Nat → Except (String × LoopState) (LoopState × String)
  | 0 => Except.ok (st, response)
  | n + 1 =>
    let st1 := readLine st
    match processRow st1.store idxs st1.buffer.data 0 with
    | Except.error e => Except.error (e, st1)
    | Except.ok (store2, echoed) =>
      let Obj := calculateObjective store2
      let st2 := { st1 with
        store := store2
        invocations := st1.invocations ++ [store2.map (fun p => (p.key, p.value))] }
      let response2 := response ++ echoed ++ toString Obj.f1_value ++ ","
          ++ toString Obj.f2_value ++ "," ++ (if Obj.valid then "1" else "0") ++ "\n"
      processRequests st2 idxs response2 n

/-- Outcome of the protocol loop. -/
inductive RunOutcome where
  | completed
  | fatal (msg : String)
  | outOfFuel
deriving DecidableEq

/-- The while loop of main, lines 260-326.  Each iteration: read a line; if
it is the sentinel, stop; otherwise parse the request count from everything
after the first space, read the parameter-name header, build the positional
map and the response header (parameter keys, objective names each followed
by a comma, then the literal Valid iff the predictor is enabled), process
the declared number of rows, and flush the whole response.  Fuel bounds the
number of iterations of the otherwise unbounded while. -/
def run (Predictor : Bool) (Objectives : List String) (nParams : Nat) :
    Nat → LoopState → RunOutcome × LoopState
  | 0, st => (RunOutcome.outOfFuel, st)
  | fuel + 1, st =>
    let st1 := readLine st
    if st1.buffer = "End of HyperMapper\n" then (RunOutcome.completed, st1)
    else
      match stoi (numReqStr st1.buffer.data) with
      | none => (RunOutcome.fatal "stoi: invalid argument", st1)
      | some numRequests =>
        let st2 := readLine st1
        match resolveHeader st2.store st2.buffer.data 0 nParams with
        | Except.error e => (RunOutcome.fatal e, st2)
        | Except.ok (idxs, respParams) =>
          let response := respParams
              ++ Objectives.foldl (fun r o => r ++ o ++ ",") ""
              ++ (if Predictor then "Valid" else "") ++ "\n"
          match processRequests st2 idxs response numRequests.toNat with
          | Except.error (e, st3) => (RunOutcome.fatal e, st3)
          | Except.ok (st3, resp) =>
            run Predictor Objectives nParams fuel
              { st3 with responses := st3.responses ++ [resp] }

/-- Fresh loop state over a given incoming line stream, with the store of
collectInputParams. -/
def initState (stream : List String) : LoopState :=
  { stream := stream, buffer := "", store := collectInputParams,
    invocations := [], responses := [] }

/-- The loop exactly as configured in main: predictor enabled, objectives
f1_value and f2_value, two parameters. -/
def mainRun (stream : List String) (fuel : Nat) : RunOutcome × LoopState :=
  run true ["f1_value", "f2_value"] 2 fuel (initState stream)

/-! ## Response framing vocabulary

Names for the pieces of a response block, used to state the framing of the
response universally over batches. -/

/-- The n tokens of a comma-delimited line, starting at pos: the token at
pos, then the tokens after each successive delimiter. -/
def headerTokens (cs : List Char) (pos : Nat) : Nat → List String
  | 0 => []
  | n + 1 => String.mk (substrTok cs pos) :: headerTokens cs (nextPos cs pos) n

/-- Echo of a token list as written into the response: every token followed
by a comma. -/
def echoConcat : List String → String
  | [] => ""
  | t :: ts => t ++ "," ++ echoConcat ts

/-- One response body row as the request loop appends it: the echoed row
tokens, the two objective values each followed by a comma, and the
feasibility flag rendered 1/0, newline-terminated. -/
def rowBlock (b : String × HMObjective) : String :=
  b.1 ++ toString b.2.f1_value ++ "," ++ toString b.2.f2_value ++ ","
    ++ (if b.2.valid then "1" else "0") ++ "\n"

/-- Concatenation of a list of strings. -/
def strConcat : List String → String
  | [] => ""
  | s :: rest => s ++ strConcat rest

/-! ## Parameter Model setValue (spec-modelled) -/

/-- Error values of the Parameter Model contract (specification section 4.1). -/
inductive HMError where
  | DomainViolation
  | NotFound
deriving DecidableEq

/-- Modelled from the spec: the body of HMInputParam.setVal is declared in
cpp_client.h, which is absent from the source tree.  Specification section
4.1: setValue(x) fails with DomainViolation if x is outside the domain, and
for interval kinds the domain is the closed interval from lo to hi, taken
here from the two-element range list of the parameter. -/
def setValue (p : HMInputParam) (x : Int) : Except HMError HMInputParam :=
  let lo := p.range.getD 0 0
  let hi := p.range.getD 1 0
  if lo ≤ x ∧ x ≤ hi then Except.ok { p with value := x }
  else Except.error HMError.DomainViolation

/-! ## Startup environment gate -/

/-- Result of the environment check at the top of main. -/
inductive StartupOutcome where
  | fatalExit (msg : String)
  | launch
deriving DecidableEq

/-- Lines 198-202 of main: the run aborts through fatalError when getenv
returns null for HYPERMAPPER_HOME or for PYTHONPATH.  getenv yields null
exactly for an unset variable, so any set value passes, the empty string
included.  The check precedes every directory, scenario-file and subprocess
step of main, so the fatal branch exits before anything is spawned. -/
def startupEnvGate (env : String → Option String) : StartupOutcome :=
  if (env "HYPERMAPPER_HOME").isNone || (env "PYTHONPATH").isNone then
    StartupOutcome.fatalExit
      "Environment variables are not set!\nPlease set HYPERMAPPER_HOME and PYTHONPATH before running this "
  else
    StartupOutcome.launch

/-! ## Scenario serialization (createjson) -/

/-- getTypeAsString is declared in cpp_client.h, absent from the source
tree; Modelled from the spec: parameter_type is the string form of the kind
enum. -/
def getTypeAsString : ParamType → String
  | ParamType.Real => "real"
  | ParamType.Integer => "integer"
  | ParamType.Ordinal => "ordinal"
  | ParamType.Categorical => "categorical"

/-- The per-parameter switch of createjson, lines 120-134: Ordinal,
Categorical and Integer parameters serialize their type string and range
into their input_parameters entry; the default branch, reached exactly for
Real, is fatalError with the message below. -/
def serializeInputParam (p : HMInputParam) :
    Except String (String × String × List Int) :=
  match p.type with
  | ParamType.Ordinal => Except.ok (p.key, getTypeAsString p.type, p.range)
  | ParamType.Categorical => Except.ok (p.key, getTypeAsString p.type, p.range)
  | ParamType.Integer => Except.ok (p.key, getTypeAsString p.type, p.range)
  | ParamType.Real => Except.error "Only Ordinal and Categorical handled!"

/-- The for loop over InParams in createjson: serialize every parameter in
order; the first fatalError terminates the construction. -/
def createjsonInputParams :
    List HMInputParam → Except String (List (String × String × List Int))
  | [] => Except.ok []
  | p :: rest =>
    match serializeInputParam p with
    | Except.error e => Except.error e
    | Except.ok entry =>
      match createjsonInputParams rest with
      | Except.error e => Except.error e
      | Except.ok entries => Except.ok (entry :: entries)

/-! ## Helper lemmas -/

/-- readLine never touches the invocation trace. -/
theorem readLine_invocations (st : LoopState) :
    (readLine st).invocations = st.invocations := by
  rcases st with ⟨s, b, sto, inv, resp⟩
  cases s <;> rfl

/-- Reading the parameter at the index just written. -/
theorem setValAt_get_eq :
    ∀ (store : List HMInputParam) (idx : Nat) (v : Int),
      (setValAt store idx v).get? idx
        = (store.get? idx).map (fun p => { p with value := v })
  | [], _, _ => by cases ([] : List HMInputParam).get? 0 <;> simp [setValAt]
  | _ :: _, 0, _ => rfl
  | _ :: rest, idx + 1, v => by
      simpa [setValAt] using setValAt_get_eq rest idx v

/-- Writing one parameter leaves every other index unchanged. -/
theorem setValAt_get_ne :
    ∀ (store : List HMInputParam) (idx : Nat) (v : Int) (j : Nat), j ≠ idx →
      (setValAt store idx v).get? j = store.get? j
  | [], _, _, _, _ => rfl
  | _ :: _, 0, _, 0, h => absurd rfl h
  | _ :: _, 0, _, _ + 1, _ => rfl
  | _ :: _, _ + 1, _, 0, _ => rfl
  | _ :: rest, idx + 1, v, j + 1, h => by
      simpa [setValAt] using setValAt_get_ne rest idx v j (fun hc => h (by omega))

/-- Candidate-row processing leaves parameters outside the batch map
untouched. -/
theorem processRow_get_not_mem :
    ∀ (idxs : List Nat) (store : List HMInputParam) (cs : List Char) (pos : Nat)
      (store2 : List HMInputParam) (echoed : String),
      processRow store idxs cs pos = Except.ok (store2, echoed) →
      ∀ j, j ∉ idxs → store2.get? j = store.get? j := by
  intro idxs
  induction idxs with
  | nil =>
    intro store cs pos store2 echoed h j _
    simp only [processRow] at h
    cases h
    rfl
  | cons idx rest ih =>
    intro store cs pos store2 echoed h j hj
    have hj1 : j ∉ rest := fun hc => hj (List.mem_cons_of_mem _ hc)
    have hj0 : j ≠ idx := fun hc => hj (hc ▸ List.mem_cons_self _ _)
    simp only [processRow] at h
    split at h
    · exact Except.noConfusion h
    · rename_i v hv
      split at h
      · rename_i st2 resp hrec
        cases h
        rw [ih _ _ _ _ _ hrec j hj1, setValAt_get_ne store idx v j hj0]
      · exact Except.noConfusion h

/-- On success, processRequests performs exactly one evaluator invocation
per declared row. -/
theorem processRequests_ok_length :
    ∀ (n : Nat) (st : LoopState) (idxs : List Nat) (response : String)
      (st2 : LoopState) (resp2 : String),
      processRequests st idxs response n = Except.ok (st2, resp2) →
      st2.invocations.length = st.invocations.length + n := by
  intro n
  induction n with
  | zero =>
    intro st idxs response st2 resp2 h
    simp only [processRequests] at h
    cases h
    rfl
  | succ n ih =>
    intro st idxs response st2 resp2 h
    simp only [processRequests] at h
    cases hrow : processRow (readLine st).store idxs (readLine st).buffer.data 0 with
    | error e => rw [hrow] at h; cases h
    | ok pr =>
      rw [hrow] at h
      have := ih _ _ _ _ _ h
      rw [this]
      simp [readLine_invocations]
      omega

/-- On success, the positional map built from the parameter-name header has
one entry per position, and the entry at position i is exactly the
findHMParamByKey resolution of the token at position i. -/
theorem resolveHeader_ok_get :
    ∀ (n : Nat) (InParams : List HMInputParam) (cs : List Char) (pos : Nat)
      (idxs : List Nat) (resp : String),
      resolveHeader InParams cs pos n = Except.ok (idxs, resp) →
      idxs.length = n ∧
      ∀ i, i < n →
        idxs.get? i
          = findHMParamByKey InParams (String.mk (substrTok cs (posIter cs pos i))) := by
  intro n
  induction n with
  | zero =>
    intro InParams cs pos idxs resp h
    simp only [resolveHeader] at h
    cases h
    exact ⟨rfl, fun i hi => absurd hi (by omega)⟩
  | succ n ih =>
    intro InParams cs pos idxs resp h
    simp only [resolveHeader] at h
    split at h
    · rename_i idx hfind
      split at h
      · rename_i m resp2 hrec
        cases h
        obtain ⟨hlen, hget⟩ := ih InParams cs (nextPos cs pos) m resp2 hrec
        refine ⟨by simp [hlen], fun i hi => ?_⟩
        cases i with
        | zero => simpa [posIter] using hfind.symm
        | succ i => simpa [posIter] using hget i (by omega)
      · exact Except.noConfusion h
    · exact Except.noConfusion h

/-- On success, with a duplicate-free positional map, the parameter at the
index mapped to position i holds exactly the parsed value of the row token
at position i. -/
theorem processRow_ok_assign :
    ∀ (idxs : List Nat) (store : List HMInputParam) (cs : List Char) (pos : Nat)
      (store2 : List HMInputParam) (echoed : String),
      processRow store idxs cs pos = Except.ok (store2, echoed) →
      idxs.Nodup →
      ∀ i (h : i < idxs.length),
        store2.get? (idxs.get ⟨i, h⟩)
          = (stoi (substrTok cs (posIter cs pos i))).bind
              (fun v => (store.get? (idxs.get ⟨i, h⟩)).map
                (fun p => { p with value := v })) := by
  intro idxs
  induction idxs with
  | nil =>
    intro store cs pos store2 echoed h hnd i hi
    exact absurd hi (by simp)
  | cons idx rest ih =>
    intro store cs pos store2 echoed h hnd i hi
    obtain ⟨hnotmem, hnd2⟩ := List.nodup_cons.mp hnd
    simp only [processRow] at h
    split at h
    · exact Except.noConfusion h
    · rename_i v hv
      split at h
      next st2 resp hrec =>
        cases h
        cases i with
        | zero =>
          have h1 : store2.get? idx = (setValAt store idx v).get? idx :=
            processRow_get_not_mem rest (setValAt store idx v) cs (nextPos cs pos)
              store2 resp hrec idx hnotmem
          simp only [List.get] at h1 ⊢
          rw [h1, setValAt_get_eq]
          simp [posIter, hv]
        | succ i =>
          have hi2 : i < rest.length := by simpa using hi
          have hrecget := ih (setValAt store idx v) cs (nextPos cs pos)
            store2 resp hrec hnd2 i hi2
          have hne : rest.get ⟨i, hi2⟩ ≠ idx :=
            fun hc => hnotmem (hc ▸ List.get_mem rest i hi2)
          rw [setValAt_get_ne store idx v _ hne] at hrecget
          simpa [posIter] using hrecget
      next e hrec => exact Except.noConfusion h

/-- A parameter-name header containing any token that findHMParamByKey
cannot resolve makes resolveHeader fail with the fatalError message of the
source. -/
theorem resolveHeader_error_of_unresolved :
    ∀ (n : Nat) (InParams : List HMInputParam) (cs : List Char) (pos : Nat),
      (∃ i, i < n ∧
        findHMParamByKey InParams (String.mk (substrTok cs (posIter cs pos i))) = none) →
      resolveHeader InParams cs pos n = Except.error "Unknown parameter received!" := by
  intro n
  induction n with
  | zero =>
    intro InParams cs pos h
    obtain ⟨i, hi, _⟩ := h
    omega
  | succ n ih =>
    intro InParams cs pos h
    obtain ⟨i, hi, hnone⟩ := h
    simp only [resolveHeader]
    cases hfind : findHMParamByKey InParams (String.mk (substrTok cs pos)) with
    | none => simp [hfind]
    | some idx =>
      cases i with
      | zero =>
        rw [show posIter cs pos 0 = pos from rfl] at hnone
        rw [hnone] at hfind
        exact Option.noConfusion hfind
      | succ i =>
        have hrec := ih InParams cs (nextPos cs pos)
          ⟨i, by omega, by simpa [posIter] using hnone⟩
        simp [hfind, hrec]

/-- On success, the header echo accumulated by resolveHeader is exactly the
n header tokens in header order, each followed by a comma. -/
theorem resolveHeader_ok_resp :
    ∀ (n : Nat) (InParams : List HMInputParam) (cs : List Char) (pos : Nat)
      (idxs : List Nat) (resp : String),
      resolveHeader InParams cs pos n = Except.ok (idxs, resp) →
      resp = echoConcat (headerTokens cs pos n) := by
  intro n
  induction n with
  | zero =>
    intro InParams cs pos idxs resp h
    simp only [resolveHeader] at h
    cases h
    rfl
  | succ n ih =>
    intro InParams cs pos idxs resp h
    simp only [resolveHeader] at h
    split at h
    · rename_i idx hfind
      split at h
      · rename_i m resp2 hrec
        cases h
        rw [ih InParams cs (nextPos cs pos) m resp2 hrec]
        simp [headerTokens, echoConcat]
      · exact Except.noConfusion h
    · exact Except.noConfusion h

/-- On success, the response accumulated by the request loop is the
incoming response followed by exactly one rowBlock per declared row: each
body row is the echoed tokens, the objective values, and the feasibility
flag, for every batch and every state. -/
theorem processRequests_ok_resp :
    ∀ (n : Nat) (st : LoopState) (idxs : List Nat) (response : String)
      (st3 : LoopState) (resp : String),
      processRequests st idxs response n = Except.ok (st3, resp) →
      ∃ blocks : List (String × HMObjective),
        blocks.length = n ∧
        resp = response ++ strConcat (blocks.map rowBlock) := by
  intro n
  induction n with
  | zero =>
    intro st idxs response st3 resp h
    simp only [processRequests] at h
    cases h
    exact ⟨[], rfl, by simp [strConcat]⟩
  | succ n ih =>
    intro st idxs response st3 resp h
    simp only [processRequests] at h
    split at h
    · exact Except.noConfusion h
    · rename_i store2 echoed hrow
      obtain ⟨blocks, hlen, hresp⟩ := ih _ _ _ _ _ h
      refine ⟨(echoed, calculateObjective store2) :: blocks, by simp [hlen], ?_⟩
      rw [hresp]
      simp [rowBlock, strConcat, String.append_assoc]

/-! ## Claim theorems -/

/-- C1 counterexample: the claim asserts that evaluating x1=2, x2=1 yields
f1=2, f2=18 and feasible=true; the code gives f1=2 and f2=18 but the second
constraint x1 - 3*x2 + 10 <= 0 evaluates to 9 <= 0, which is false, so the
point is infeasible and the conjunction of the claim is false. -/
theorem calculateObjective_claimC1_false :
    ¬ ((calculateObjective (storeWith 2 1)).f1_value = 2 ∧
       (calculateObjective (storeWith 2 1)).f2_value = 18 ∧
       (calculateObjective (storeWith 2 1)).valid = true) := by
  decide

/-- C1 (amended): the reference evaluator computes
f1 = 2 + (x1-2)^2 + (x2-1)^2 and f2 = 9*x1 - (x2-1)^2, with feasibility
exactly when x1^2+x2^2 <= 255 and x1 - 3*x2 + 10 <= 0; evaluating x1=2,
x2=1 yields f1=2, f2=18 and feasible=false. -/
theorem calculateObjective_formula_and_at_2_1 :
    (∀ a b : Int,
      (calculateObjective (storeWith a b)).f1_value
          = 2 + (a - 2) * (a - 2) + (b - 1) * (b - 1) ∧
      (calculateObjective (storeWith a b)).f2_value
          = 9 * a - (b - 1) * (b - 1) ∧
      ((calculateObjective (storeWith a b)).valid = true ↔
        (a * a + b * b ≤ 255 ∧ a - 3 * b + 10 ≤ 0))) ∧
    (calculateObjective (storeWith 2 1)).f1_value = 2 ∧
    (calculateObjective (storeWith 2 1)).f2_value = 18 ∧
    (calculateObjective (storeWith 2 1)).valid = false := by
  refine ⟨fun a b => ⟨rfl, rfl, ?_⟩, by decide, by decide, by decide⟩
  simp [calculateObjective, storeWith, setValAt, collectInputParams, getValAt]

/-- C1 witness: the feasibility equivalence of the amended theorem applied
at the concrete feasible point x1=0, x2=4. -/
theorem calculateObjective_formula_witness :
    (calculateObjective (storeWith 0 4)).valid = true :=
  ((calculateObjective_formula_and_at_2_1.1 0 4).2.2).mpr (by decide)

/-- C2: whenever the per-request loop succeeds, it performs exactly one
evaluator invocation per declared candidate row; and on the batch of the
claim (request header Request 2, parameter header x0,x1, rows 1,2 and
-3,4) the loop completes with exactly the two invocations x0=1,x1=2 and
x0=-3,x1=4, each response body row echoing the input tokens verbatim
before the objective values. -/
theorem loop_invokes_once_per_row :
    (∀ (n : Nat) (st : LoopState) (idxs : List Nat) (response : String)
        (st2 : LoopState) (resp2 : String),
        processRequests st idxs response n = Except.ok (st2, resp2) →
        st2.invocations.length = st.invocations.length + n) ∧
    (mainRun ["Request 2\n", "x0,x1\n", "1,2\n", "-3,4\n", "End of HyperMapper\n"] 3).1
        = RunOutcome.completed ∧
    (mainRun ["Request 2\n", "x0,x1\n", "1,2\n", "-3,4\n", "End of HyperMapper\n"] 3).2.invocations
        = [[("x0", 1), ("x1", 2)], [("x0", -3), ("x1", 4)]] ∧
    (mainRun ["Request 2\n", "x0,x1\n", "1,2\n", "-3,4\n", "End of HyperMapper\n"] 3).2.responses
        = ["x0,x1,f1_value,f2_value,Valid\n1,2,4,8,0\n-3,4,36,-36,1\n"] :=
  ⟨processRequests_ok_length, by decide, by decide, by decide⟩

/-- C2 witness: the invocation-count part applied to a concrete one-row
batch body, whose processRequests run is evaluated by decide. -/
theorem loop_invokes_once_per_row_witness :
    ({ stream := [], buffer := "1,2\n", store := storeWith 1 2,
       invocations := [[("x0", 1), ("x1", 2)]],
       responses := [] } : LoopState).invocations.length
      = (initState ["1,2\n"]).invocations.length + 1 :=
  loop_invokes_once_per_row.1 1 (initState ["1,2\n"]) [0, 1] ""
    { stream := [], buffer := "1,2\n", store := storeWith 1 2,
      invocations := [[("x0", 1), ("x1", 2)]], responses := [] }
    "1,2,4,8,0\n" (by rfl)

/-- C3: values are assigned by header position, not by declaration order:
the positional map entry at position i is the store index of the parameter
named by header token i; on a successful row, the parameter at the index
mapped to position i receives the parsed value of row token i; and on the
concrete permuted batch with header x1,x0 and row 5,6 the invocation
records x0=6 and x1=5. -/
theorem positional_assignment :
    (∀ (n : Nat) (InParams : List HMInputParam) (cs : List Char) (pos : Nat)
        (idxs : List Nat) (resp : String),
        resolveHeader InParams cs pos n = Except.ok (idxs, resp) →
        ∀ i, i < n →
          idxs.get? i
            = findHMParamByKey InParams (String.mk (substrTok cs (posIter cs pos i)))) ∧
    (∀ (idxs : List Nat) (store : List HMInputParam) (cs : List Char) (pos : Nat)
        (store2 : List HMInputParam) (echoed : String),
        processRow store idxs cs pos = Except.ok (store2, echoed) →
        idxs.Nodup →
        ∀ i (h : i < idxs.length),
          store2.get? (idxs.get ⟨i, h⟩)
            = (stoi (substrTok cs (posIter cs pos i))).bind
                (fun v => (store.get? (idxs.get ⟨i, h⟩)).map
                  (fun p => { p with value := v }))) ∧
    (mainRun ["Request 1\n", "x1,x0\n", "5,6\n", "End of HyperMapper\n"] 3).2.invocations
        = [[("x0", 6), ("x1", 5)]] :=
  ⟨fun n InParams cs pos idxs resp h => (resolveHeader_ok_get n InParams cs pos idxs resp h).2,
   processRow_ok_assign, by decide⟩

/-- C3 witness: the header-map part applied to the concrete permuted header
x1,x0, position 0: the map sends position 0 to store index 1, the
resolution of token x1. -/
theorem positional_assignment_witness :
    ([1, 0] : List Nat).get? 0
      = findHMParamByKey collectInputParams
          (String.mk (substrTok ("x1,x0\n".data) (posIter ("x1,x0\n".data) 0 0))) :=
  positional_assignment.1 2 collectInputParams ("x1,x0\n".data) 0 [1, 0] "x1,x0,"
    (by rfl) 0 (by decide)

/-- C4 counterexample: with the feasibility predictor disabled, the claim
says each body row omits the feasibility flag; but the source appends
to_string(Obj.valid) unconditionally (only the header token Valid is
guarded by the Predictor flag), so the body row of the concrete batch still
ends in the flag character 0 followed by the newline. -/
theorem predictor_disabled_flag_still_emitted :
    (run false ["f1_value", "f2_value"] 2 2
        (initState ["Request 1\n", "x0,x1\n", "1,2\n", "End of HyperMapper\n"])).2.responses
      = ["x0,x1,f1_value,f2_value,\n1,2,4,8,0\n"] ∧
    (((run false ["f1_value", "f2_value"] 2 2
        (initState ["Request 1\n", "x0,x1\n", "1,2\n", "End of HyperMapper\n"])).2.responses.getD 0
        "").data.reverse.take 2 = ['\n', '0']) := by
  exact ⟨by decide, by decide⟩

/-- C4 (amended): for every batch - any predictor setting, objective list,
parameter count, request line, header line, incoming rows and prior state -
the response flushed for the batch is the header line (the parameter keys
echoed in header order, then every configured objective name each followed
by a comma, then the literal Valid exactly when the predictor is enabled)
followed by one body row per declared row, each row ending with the
feasibility flag rendered as 1/0 regardless of the predictor setting; and
on the concrete one-row batch both predictor settings produce exactly the
predicted response text, the flag included in both. -/
theorem response_framing :
    (∀ (P : Bool) (O : List String) (np fuel : Nat) (reqLine hdrLine buf : String)
        (rest : List String) (store : List HMInputParam)
        (invs : List (List (String × Int))) (resps : List String)
        (k : Int) (idxs : List Nat) (respParams : String)
        (st3 : LoopState) (resp : String),
        reqLine ≠ "End of HyperMapper\n" →
        stoi (numReqStr reqLine.data) = some k →
        resolveHeader store hdrLine.data 0 np = Except.ok (idxs, respParams) →
        processRequests
            { stream := rest, buffer := hdrLine, store := store,
              invocations := invs, responses := resps } idxs
            (respParams ++ O.foldl (fun r o => r ++ o ++ ",") ""
              ++ (if P then "Valid" else "") ++ "\n") k.toNat
          = Except.ok (st3, resp) →
        run P O np (fuel + 1)
            { stream := reqLine :: hdrLine :: rest, buffer := buf, store := store,
              invocations := invs, responses := resps }
          = run P O np fuel { st3 with responses := st3.responses ++ [resp] } ∧
        ∃ blocks : List (String × HMObjective),
          blocks.length = k.toNat ∧
          resp = echoConcat (headerTokens hdrLine.data 0 np)
              ++ O.foldl (fun r o => r ++ o ++ ",") ""
              ++ (if P then "Valid" else "") ++ "\n"
              ++ strConcat (blocks.map rowBlock)) ∧
    (∀ P : Bool,
      (run P ["f1_value", "f2_value"] 2 2
          (initState ["Request 1\n", "x0,x1\n", "1,2\n", "End of HyperMapper\n"])).1
        = RunOutcome.completed ∧
      (run P ["f1_value", "f2_value"] 2 2
          (initState ["Request 1\n", "x0,x1\n", "1,2\n", "End of HyperMapper\n"])).2.responses
        = ["x0,x1," ++ "f1_value,f2_value,"
            ++ (if P then "Valid" else "") ++ "\n" ++ "1,2,4,8,0\n"]) := by
  constructor
  · intro P O np fuel reqLine hdrLine buf rest store invs resps k idxs respParams
      st3 resp h1 h2 h3 h4
    constructor
    · simp [run, readLine, h1, h2, h3, h4]
    · obtain ⟨blocks, hlen, hresp⟩ :=
        processRequests_ok_resp k.toNat _ idxs _ st3 resp h4
      refine ⟨blocks, hlen, ?_⟩
      rw [hresp, resolveHeader_ok_resp np store hdrLine.data 0 idxs respParams h3]
  · intro P
    cases P
    · exact ⟨by decide, by decide⟩
    · exact ⟨by decide, by decide⟩

/-- C4 witness: the universal framing applied at the concrete one-row batch
Request 1, header x0,x1, row 1,2, with the predictor enabled; the
hypotheses evaluate by decide and rfl. -/
theorem response_framing_witness :
    run true ["f1_value", "f2_value"] 2 1
        { stream := "Request 1\n" :: "x0,x1\n" :: ["1,2\n"], buffer := "",
          store := collectInputParams, invocations := [], responses := [] }
      = run true ["f1_value", "f2_value"] 2 0
          { stream := [], buffer := "1,2\n", store := storeWith 1 2,
            invocations := [[("x0", 1), ("x1", 2)]],
            responses := ["x0,x1,f1_value,f2_value,Valid\n1,2,4,8,0\n"] } ∧
    ∃ blocks : List (String × HMObjective),
      blocks.length = (1 : Int).toNat ∧
      "x0,x1,f1_value,f2_value,Valid\n1,2,4,8,0\n"
        = echoConcat (headerTokens ("x0,x1\n".data) 0 2)
            ++ ["f1_value", "f2_value"].foldl (fun r o => r ++ o ++ ",") ""
            ++ (if true then "Valid" else "") ++ "\n"
            ++ strConcat (blocks.map rowBlock) :=
  response_framing.1 true ["f1_value", "f2_value"] 2 0 "Request 1\n" "x0,x1\n" ""
    ["1,2\n"] collectInputParams [] [] 1 [0, 1] "x0,x1,"
    { stream := [], buffer := "1,2\n", store := storeWith 1 2,
      invocations := [[("x0", 1), ("x1", 2)]], responses := [] }
    "x0,x1,f1_value,f2_value,Valid\n1,2,4,8,0\n"
    (by decide) (by decide) rfl rfl

/-- C5: when the very first line read is the sentinel End of HyperMapper,
the loop exits cleanly at once, for any predictor setting, objective list,
parameter count and remaining stream: no evaluator invocation is recorded
and no response is written. -/
theorem sentinel_first_line_terminates :
    ∀ (P : Bool) (O : List String) (np fuel : Nat) (rest : List String),
      (run P O np (fuel + 1) (initState ("End of HyperMapper\n" :: rest))).1
          = RunOutcome.completed ∧
      (run P O np (fuel + 1) (initState ("End of HyperMapper\n" :: rest))).2.invocations
          = [] ∧
      (run P O np (fuel + 1) (initState ("End of HyperMapper\n" :: rest))).2.responses
          = [] := by
  intro P O np fuel rest
  refine ⟨?_, ?_, ?_⟩ <;> simp [run, readLine, initState]

/-- C5 witness: the sentinel-first theorem applied at the configuration of
main with an empty remaining stream. -/
theorem sentinel_first_line_terminates_witness :
    (run true ["f1_value", "f2_value"] 2 1 (initState ["End of HyperMapper\n"])).1
      = RunOutcome.completed :=
  (sentinel_first_line_terminates true ["f1_value", "f2_value"] 2 0 []).1

/-- C6: a parameter-name header containing a token that resolves to no key
of the parameter store makes the iteration reach fatalError with the
message Unknown parameter received!, leaving the invocation trace and the
responses exactly as they were: the evaluator is never invoked for that
batch and no response is sent. -/
theorem unknown_param_header_fatal :
    ∀ (P : Bool) (O : List String) (np fuel : Nat) (reqLine hdrLine buf : String)
      (rest : List String) (store : List HMInputParam)
      (invs : List (List (String × Int))) (resps : List String) (k : Int),
      reqLine ≠ "End of HyperMapper\n" →
      stoi (numReqStr reqLine.data) = some k →
      (∃ i, i < np ∧ findHMParamByKey store
          (String.mk (substrTok hdrLine.data (posIter hdrLine.data 0 i))) = none) →
      (run P O np (fuel + 1)
          { stream := reqLine :: hdrLine :: rest, buffer := buf, store := store,
            invocations := invs, responses := resps }).1
          = RunOutcome.fatal "Unknown parameter received!" ∧
      (run P O np (fuel + 1)
          { stream := reqLine :: hdrLine :: rest, buffer := buf, store := store,
            invocations := invs, responses := resps }).2.invocations = invs ∧
      (run P O np (fuel + 1)
          { stream := reqLine :: hdrLine :: rest, buffer := buf, store := store,
            invocations := invs, responses := resps }).2.responses = resps := by
  intro P O np fuel reqLine hdrLine buf rest store invs resps k hne hstoi hex
  have hresolve := resolveHeader_error_of_unresolved np store hdrLine.data 0 hex
  refine ⟨?_, ?_, ?_⟩ <;>
    simp [run, readLine, hne, hstoi, hresolve]

/-- C6 witness: the fatal-header theorem applied to the concrete batch with
header x0,zz whose second token matches no parameter key. -/
theorem unknown_param_header_fatal_witness :
    (run true ["f1_value", "f2_value"] 2 1
        { stream := ["Request 1\n", "x0,zz\n"], buffer := "", store := collectInputParams,
          invocations := [], responses := [] }).1
      = RunOutcome.fatal "Unknown parameter received!" :=
  (unknown_param_header_fatal true ["f1_value", "f2_value"] 2 0 "Request 1\n" "x0,zz\n" ""
    [] collectInputParams [] [] 1 (by decide) (by decide)
    ⟨1, by omega, by decide⟩).1

/-- C7: for a parameter with interval domain lo..hi, the spec-modelled
setValue accepts every value between lo and hi, storing it as the current
value, and rejects lo - 1 and hi + 1 with DomainViolation. -/
theorem setValue_interval :
    ∀ (key : String) (t : ParamType) (lo hi v x : Int),
      (lo ≤ x → x ≤ hi →
        setValue { key := key, type := t, range := [lo, hi], value := v } x
          = Except.ok { key := key, type := t, range := [lo, hi], value := x }) ∧
      setValue { key := key, type := t, range := [lo, hi], value := v } (lo - 1)
          = Except.error HMError.DomainViolation ∧
      setValue { key := key, type := t, range := [lo, hi], value := v } (hi + 1)
          = Except.error HMError.DomainViolation := by
  intro key t lo hi v x
  refine ⟨fun h1 h2 => ?_, ?_, ?_⟩ <;>
    simp only [setValue, List.getD, List.get?, Option.getD]
  · rw [if_pos ⟨h1, h2⟩]
  · rw [if_neg (by omega)]
  · rw [if_neg (by omega)]

/-- C7 witness: acceptance applied at the concrete Integer parameter of the
client with domain -20..20 and the in-range value 5. -/
theorem setValue_interval_witness :
    setValue { key := "x0", type := ParamType.Integer, range := [-20, 20], value := 0 } 5
      = Except.ok { key := "x0", type := ParamType.Integer, range := [-20, 20], value := 5 } :=
  (setValue_interval "x0" ParamType.Integer (-20) 20 0 5).1 (by decide) (by decide)

/-- C8 counterexample: the claim requires both environment variables to be
set and non-empty; the source only tests getenv against null, so an
environment carrying both variables as empty strings passes the gate and
the client proceeds to launch. -/
theorem envGate_accepts_empty_values :
    startupEnvGate (fun _ => some "") = StartupOutcome.launch ∧
    (fun _ => some ("" : String)) "HYPERMAPPER_HOME" = some "" :=
  ⟨rfl, rfl⟩

/-- C8 (amended): the client requires HYPERMAPPER_HOME and PYTHONPATH to be
set; any set value passes, the empty string included; if either variable is
absent the gate exits fatally before anything is launched. -/
theorem envGate_requires_set_vars :
    ∀ env : String → Option String,
      (startupEnvGate env = StartupOutcome.launch ↔
        ((env "HYPERMAPPER_HOME").isSome ∧ (env "PYTHONPATH").isSome)) ∧
      ((env "HYPERMAPPER_HOME" = none ∨ env "PYTHONPATH" = none) →
        startupEnvGate env
          = StartupOutcome.fatalExit
              "Environment variables are not set!\nPlease set HYPERMAPPER_HOME and PYTHONPATH before running this ") := by
  intro env
  cases hA : env "HYPERMAPPER_HOME" <;> cases hB : env "PYTHONPATH" <;>
    simp [startupEnvGate, hA, hB]

/-- C8 witness: the fatal branch applied at the fully unset environment. -/
theorem envGate_requires_set_vars_witness :
    startupEnvGate (fun _ => none)
      = StartupOutcome.fatalExit
          "Environment variables are not set!\nPlease set HYPERMAPPER_HOME and PYTHONPATH before running this " :=
  (envGate_requires_set_vars (fun _ => none)).2 (Or.inl rfl)

/-- C9 (code bug): the loop never checks the fgets return value, so when
the child closes its output after sending Request 2, the header x0,x1 and
a single row 1,2, the loop reuses the stale buffer in place of every
missing line: the second declared row is read as the stale 1,2 and the
evaluator runs a second time on it, a two-row response is flushed, and the
next iteration misparses the stale row as a request header and dies with
Unknown parameter received!  instead of failing with EndOfStream at the
read. -/
theorem eof_stale_buffer_reprocessed :
    (mainRun ["Request 2\n", "x0,x1\n", "1,2\n"] 3).1
        = RunOutcome.fatal "Unknown parameter received!" ∧
    (mainRun ["Request 2\n", "x0,x1\n", "1,2\n"] 3).2.invocations
        = [[("x0", 1), ("x1", 2)], [("x0", 1), ("x1", 2)]] ∧
    (mainRun ["Request 2\n", "x0,x1\n", "1,2\n"] 3).2.responses
        = ["x0,x1,f1_value,f2_value,Valid\n1,2,4,8,0\n1,2,4,8,0\n"] :=
  ⟨by decide, by decide, by decide⟩

/-- C10: the createjson switch serializes Ordinal, Categorical and Integer
parameters into input_parameters entries and reaches fatalError exactly for
a Real parameter; any parameter list containing a Real parameter makes the
construction fail with that message. -/
theorem createjson_rejects_real :
    (∀ p : HMInputParam, p.type = ParamType.Real →
        serializeInputParam p = Except.error "Only Ordinal and Categorical handled!") ∧
    (∀ p : HMInputParam, p.type ≠ ParamType.Real →
        serializeInputParam p = Except.ok (p.key, getTypeAsString p.type, p.range)) ∧
    (∀ ps : List HMInputParam, (∃ p ∈ ps, p.type = ParamType.Real) →
        createjsonInputParams ps = Except.error "Only Ordinal and Categorical handled!") := by
  refine ⟨?_, ?_, ?_⟩
  · intro p h
    rcases p with ⟨k, t, r, v⟩
    cases t <;> simp_all [serializeInputParam]
  · intro p h
    rcases p with ⟨k, t, r, v⟩
    cases t <;> simp_all [serializeInputParam]
  · intro ps
    induction ps with
    | nil =>
      rintro ⟨p, hp, _⟩
      cases hp
    | cons q rest ih =>
      rintro ⟨p, hp, hreal⟩
      rcases List.mem_cons.mp hp with h | h
      · subst h
        rcases p with ⟨k, t, r, v⟩
        cases t <;> simp_all [createjsonInputParams, serializeInputParam]
      · have hrec := ih ⟨p, h, hreal⟩
        rcases q with ⟨k, t, r, v⟩
        cases t <;> simp [createjsonInputParams, serializeInputParam, hrec]

/-- C10 witness: the Real branch applied at a concrete Real parameter. -/
theorem createjson_rejects_real_witness :
    serializeInputParam { key := "r0", type := ParamType.Real, range := [], value := 0 }
      = Except.error "Only Ordinal and Categorical handled!" :=
  createjson_rejects_real.1
    { key := "r0", type := ParamType.Real, range := [], value := 0 } rfl

end CppClient
